import Mathlib

/-
Verification of the nullslate CLI's feature-driven tree materialization
pipeline (skip-list resolution, filtered copy, manifest rewrite, wrapper
cleanup, environment generation).

Each definition below is a shallow embedding of a function from the
repository's Rust sources (src/template.rs, src/features.rs, src/main.rs,
src/fullstack.rs).  Strings are modelled as lists of characters, file
contents as lists of bytes (naturals below 256), and the filesystem effect
of each operation as a pure function on those values.
-/

/-- Strings are modelled as lists of characters. -/
abbrev Str := List Char

/-- Rust `str::replace` as used by `process_template` (src/template.rs line 56
and src/main.rs line 295): scan left to right and replace each leftmost
non-overlapping occurrence of `pat` by `rep`.  Faithful to Rust for nonempty
`pat`, which is the only way the repository ever calls it (the pattern is the
fixed 16-character placeholder token). -/
def replaceList (pat rep : Str) : Str → Str
  | [] => []
  | c :: rest =>
    if pat <+: (c :: rest) ∧ 0 < pat.length then
      rep ++ replaceList pat rep (rest.drop (pat.length - 1))
    else
      c :: replaceList pat rep rest
termination_by s => s.length
decreasing_by
  · simp only [List.length_drop, List.length_cons]
    omega
  · simp only [List.length_cons]
    omega

/-- The fixed placeholder token `\x7b\x7bproject_name\x7d\x7d`
(src/template.rs line 56). -/
def placeholder : Str := "\x7b\x7bproject_name\x7d\x7d".toList

/-- src/template.rs lines 55-57 (identical function at src/main.rs
lines 294-296): `content.replace("\x7b\x7bproject_name\x7d\x7d", project_name)`. -/
def process_template (content project_name : Str) : Str :=
  replaceList placeholder project_name content

/-- Strict UTF-8 validation and decoding, as performed by Rust
`fs::read_to_string` when it checks that a file's bytes are valid UTF-8.
Returns `none` exactly on byte sequences that are not valid UTF-8
(continuation errors, overlong forms, surrogates, out-of-range lead bytes). -/
def utf8Decode : List Nat → Option (List Char)
  | [] => some []
  | b1 :: t1 =>
    if b1 < 0x80 then
      (utf8Decode t1).map (fun cs => Char.ofNat b1 :: cs)
    else if 0xC2 ≤ b1 ∧ b1 ≤ 0xDF then
      match t1 with
      | b2 :: t2 =>
        if 0x80 ≤ b2 ∧ b2 ≤ 0xBF then
          (utf8Decode t2).map (fun cs => Char.ofNat ((b1 - 0xC0) * 0x40 + (b2 - 0x80)) :: cs)
        else none
      | [] => none
    else if 0xE0 ≤ b1 ∧ b1 ≤ 0xEF then
      match t1 with
      | b2 :: b3 :: t3 =>
        if (if b1 = 0xE0 then 0xA0 ≤ b2 ∧ b2 ≤ 0xBF
            else if b1 = 0xED then 0x80 ≤ b2 ∧ b2 ≤ 0x9F
            else 0x80 ≤ b2 ∧ b2 ≤ 0xBF) ∧ 0x80 ≤ b3 ∧ b3 ≤ 0xBF then
          (utf8Decode t3).map (fun cs =>
            Char.ofNat ((b1 - 0xE0) * 0x1000 + (b2 - 0x80) * 0x40 + (b3 - 0x80)) :: cs)
        else none
      | _ => none
    else if 0xF0 ≤ b1 ∧ b1 ≤ 0xF4 then
      match t1 with
      | b2 :: b3 :: b4 :: t4 =>
        if (if b1 = 0xF0 then 0x90 ≤ b2 ∧ b2 ≤ 0xBF
            else if b1 = 0xF4 then 0x80 ≤ b2 ∧ b2 ≤ 0x8F
            else 0x80 ≤ b2 ∧ b2 ≤ 0xBF) ∧ (0x80 ≤ b3 ∧ b3 ≤ 0xBF) ∧ (0x80 ≤ b4 ∧ b4 ≤ 0xBF) then
          (utf8Decode t4).map (fun cs =>
            Char.ofNat ((b1 - 0xF0) * 0x40000 + (b2 - 0x80) * 0x1000 + (b3 - 0x80) * 0x40 + (b4 - 0x80)) :: cs)
        else none
      | _ => none
    else none

/-- UTF-8 encoding of one character, as performed when Rust writes a `String`
back to disk with `fs::write`. -/
def utf8EncodeChar (c : Char) : List Nat :=
  let n := c.toNat
  if n < 0x80 then [n]
  else if n < 0x800 then [0xC0 + n / 0x40, 0x80 + n % 0x40]
  else if n < 0x10000 then [0xE0 + n / 0x1000, 0x80 + n / 0x40 % 0x40, 0x80 + n % 0x40]
  else [0xF0 + n / 0x40000, 0x80 + n / 0x1000 % 0x40, 0x80 + n / 0x40 % 0x40, 0x80 + n % 0x40]

/-- UTF-8 encoding of a string. -/
def utf8Encode (s : Str) : List Nat := (s.map utf8EncodeChar).flatten

/-- Per-file action of `copy_template` (src/template.rs lines 89-98) and of
`copy_filtered` (src/fullstack.rs lines 82-90): try to read the file as UTF-8
text; on success substitute the placeholder and write the result; on failure
(`Err` from `fs::read_to_string`) copy the bytes unmodified (`fs::copy`). -/
def materializeFileBytes (bytes : List Nat) (project_name : Str) : List Nat :=
  match utf8Decode bytes with
  | some text => utf8Encode (process_template text project_name)
  | none => bytes

/-- Per-file action of the copy loop in src/main.rs lines 164-177:
`fs::read_to_string(entry.path()).unwrap_or_default()` yields the empty string
when the bytes are not valid UTF-8, and the processed content is then written
with `fs::write` unconditionally. -/
def materializeFileBytesMain (bytes : List Nat) (project_name : Str) : List Nat :=
  utf8Encode (process_template ((utf8Decode bytes).getD []) project_name)

/-- src/features.rs lines 32-39 (identical function at src/main.rs
lines 285-292): a path is skipped when it starts with some pattern or equals
some pattern, checked in list order with early return. -/
def should_skip_file (path : Str) (skip_patterns : List Str) : Bool :=
  skip_patterns.any (fun pattern => pattern.isPrefixOf path || path == pattern)

/-- src/features.rs lines 6-30: skip rules for the app flavor, accumulated by
conditional pushes in source order. -/
def get_files_to_skip (include_docs include_auth include_db : Bool) : List Str :=
  (if include_docs then [] else
    ["src/routes/docs".toList, "content/docs".toList, "src/lib/docs.ts".toList,
     "src/lib/docs.test.ts".toList, "src/lib/mdx-components.tsx".toList,
     "src/components/docs-sidebar.tsx".toList, "src/components/copyable-pre.tsx".toList]) ++
  (if include_auth then [] else
    ["src/lib/auth.ts".toList, "api/auth".toList, "src/components/session-provider.tsx".toList]) ++
  (if include_db then [] else ["src/lib/db.ts".toList])

/-- src/features.rs lines 106-132: skip rules for the lib flavor. -/
def get_lib_files_to_skip (lang : String) (include_react include_css include_testing : Bool) :
    List Str :=
  (if lang = "javascript" then ["tsconfig.json".toList] else []) ++
  (if include_react then [] else ["src/components".toList]) ++
  (if include_css then [] else ["src/styles".toList]) ++
  (if include_testing then [] else ["vitest.config.ts".toList, "src/__tests__".toList])

/-
Manifest model.  A `package.json` section as accessed through
`package["section"].as_object_mut()` is in one of three states: the key is
absent from the top-level object, present but not a JSON object (serde_json's
`IndexMut` inserts `Null` for a missing key, and `as_object_mut` then returns
`None`), or present as an object, modelled as an association list from keys to
values of an arbitrary type `v`.
-/
inductive JSection (v : Type) where
  | absent : JSection v
  | nonObject : JSection v
  | obj : List (String × v) → JSection v
deriving DecidableEq

/-- The four top-level sections touched by the manifest editors. -/
structure Manifest (v : Type) where
  dependencies : JSection v
  devDependencies : JSection v
  peerDependencies : JSection v
  scripts : JSection v
deriving DecidableEq

/-- A sequence of `serde_json::Map::remove` calls, one per key. -/
def removeKeys (m : List (String × v)) (ks : List String) : List (String × v) :=
  ks.foldl (fun acc k => acc.filter (fun e => !(e.1 == k))) m

/-- `if let Some(sec) = package["name"].as_object_mut() \x7b f(sec) \x7d`:
serde_json's `IndexMut` inserts `Null` when the key is absent (so the section
becomes a non-object), `as_object_mut` yields the map only in the object case. -/
def modifySection (s : JSection v) (f : List (String × v) → List (String × v)) : JSection v :=
  match s with
  | .absent => .nonObject
  | .nonObject => .nonObject
  | .obj m => .obj (f m)

/-- Lookup of a dependency key in a section (first binding wins, as in a
serde_json map, whose keys are unique). -/
def sectionLookup (s : JSection v) (k : String) : Option v :=
  match s with
  | .obj m => List.lookup k m
  | _ => none

/-- src/features.rs lines 41-83: subtractive manifest edit for the app flavor.
When a feature is off, its dependency keys are removed from the sections the
source names. -/
def update_package_json (p : Manifest v) (include_docs include_auth include_db : Bool) :
    Manifest v :=
  let p1 :=
    if include_docs then p else
      { p with
        dependencies := modifySection p.dependencies
          (fun m => removeKeys m ["@mdx-js/react", "gray-matter"]),
        devDependencies := modifySection p.devDependencies
          (fun m => removeKeys m ["@mdx-js/rollup", "remark-frontmatter", "remark-mdx-frontmatter"]) }
  let p2 :=
    if include_auth then p1 else
      { p1 with
        dependencies := modifySection p1.dependencies (fun m => removeKeys m ["@auth/core"]) }
  let p3 :=
    if include_db then p2 else
      { p2 with
        dependencies := modifySection p2.dependencies (fun m => removeKeys m ["pg"]),
        devDependencies := modifySection p2.devDependencies (fun m => removeKeys m ["@types/pg"]) }
  p3

/-- src/features.rs lines 134-191: subtractive manifest edit for the lib
flavor. -/
def update_lib_package_json (p : Manifest v) (lang : String)
    (include_react include_css include_testing : Bool) : Manifest v :=
  let p1 :=
    if lang = "javascript" then
      { p with
        devDependencies := modifySection p.devDependencies
          (fun m => removeKeys m ["typescript"]) }
    else p
  let p2 :=
    if include_react then p1 else
      { p1 with
        peerDependencies := modifySection p1.peerDependencies
          (fun m => removeKeys m ["react", "react-dom"]),
        devDependencies := modifySection p1.devDependencies
          (fun m => removeKeys m ["@types/react", "@types/react-dom", "react", "react-dom"]) }
  let p3 :=
    if include_css then p2 else
      { p2 with
        dependencies := modifySection p2.dependencies
          (fun m => removeKeys m ["tailwindcss", "@tailwindcss/vite"]),
        devDependencies := modifySection p2.devDependencies
          (fun m => removeKeys m ["tailwindcss", "@tailwindcss/vite"]) }
  let p4 :=
    if include_testing then p3 else
      { p3 with
        devDependencies := modifySection p3.devDependencies
          (fun m => removeKeys m ["vitest", "@testing-library/react", "@testing-library/jest-dom", "jsdom"]),
        scripts := modifySection p3.scripts (fun m => removeKeys m ["test"]) }
  p4

/-- `serde_json::Map::insert`: replace the value if the key exists, otherwise
add the binding. -/
def insertKey (m : List (String × v)) (k : String) (x : v) : List (String × v) :=
  if m.any (fun e => e.1 == k) then
    m.map (fun e => if e.1 == k then (k, x) else e)
  else m ++ [(k, x)]

/-- src/main.rs lines 298-339: additive manifest edit of the legacy app path.
`package["dependencies"].as_object_mut().context("Invalid package.json")?`
fails when the `dependencies` key is absent or not an object (serde_json
inserts `Null` for the missing key and `as_object_mut` on `Null` is `None`);
similarly for `devDependencies` when the db feature is on.  `none` models the
propagated error, under which nothing is written back. -/
def update_package_json_main (p : Manifest String) (include_docs include_auth include_db : Bool) :
    Option (Manifest String) :=
  match p.dependencies with
  | .obj m =>
    let m1 := if include_docs then
        insertKey (insertKey m "@thesandybridge/ui" "^1.0.0") "gray-matter" "^4.0.3"
      else m
    let m2 := if include_auth then
        insertKey (insertKey (insertKey m1 "next-auth" "^5.0.0-beta.25") "@auth/core" "^0.37.4")
          "jose" "^6.0.11"
      else m1
    if include_db then
      let m3 := insertKey m2 "pg" "^8.14.1"
      match p.devDependencies with
      | .obj dm =>
        some { p with
          dependencies := .obj m3,
          devDependencies := .obj (insertKey dm "@types/pg" "^8.11.11") }
      | _ => none
    else
      some { p with dependencies := .obj m2 }
  | _ => none

/-- The dependency keys that `update_package_json` removes from the
`dependencies` section for the given toggles. -/
def removedDepsKeys (include_docs include_auth include_db : Bool) : List String :=
  (if include_docs then [] else ["@mdx-js/react", "gray-matter"]) ++
  (if include_auth then [] else ["@auth/core"]) ++
  (if include_db then [] else ["pg"])

/-- The dependency keys that `update_package_json` removes from the
`devDependencies` section for the given toggles. -/
def removedDevDepsKeys (include_docs _include_auth include_db : Bool) : List String :=
  (if include_docs then [] else ["@mdx-js/rollup", "remark-frontmatter", "remark-mdx-frontmatter"]) ++
  (if include_db then [] else ["@types/pg"])

/-- Keys removed by `update_lib_package_json` from `dependencies`. -/
def libRemovedDepsKeys (_lang : String) (_react include_css _testing : Bool) : List String :=
  if include_css then [] else ["tailwindcss", "@tailwindcss/vite"]

/-- Keys removed by `update_lib_package_json` from `devDependencies`. -/
def libRemovedDevDepsKeys (lang : String) (include_react include_css include_testing : Bool) :
    List String :=
  (if lang = "javascript" then ["typescript"] else []) ++
  (if include_react then [] else ["@types/react", "@types/react-dom", "react", "react-dom"]) ++
  (if include_css then [] else ["tailwindcss", "@tailwindcss/vite"]) ++
  (if include_testing then [] else ["vitest", "@testing-library/react", "@testing-library/jest-dom", "jsdom"])

/-- Keys removed by `update_lib_package_json` from `peerDependencies`. -/
def libRemovedPeerDepsKeys (_lang : String) (include_react _css _testing : Bool) : List String :=
  if include_react then [] else ["react", "react-dom"]

/-- Keys removed by `update_lib_package_json` from `scripts`. -/
def libRemovedScriptsKeys (_lang : String) (_react _css include_testing : Bool) : List String :=
  if include_testing then [] else ["test"]

/-- The exact SessionProvider import line deleted by
`cleanup_layout_for_no_auth` (src/features.rs lines 93-96). -/
def sessionImportLine : Str :=
  "import \x7b SessionProvider \x7d from \"@/components/session-provider\"\n".toList

/-- The exact opening wrapper marker line (src/features.rs line 99). -/
def sessionOpenLine : Str := "        <SessionProvider>\n".toList

/-- The exact closing wrapper marker line (src/features.rs line 100). -/
def sessionCloseLine : Str := "        </SessionProvider>\n".toList

/-- The three literal replacements of src/features.rs lines 90-102, applied to
the file content in source order. -/
def cleanup_layout_content (content : Str) : Str :=
  replaceList sessionCloseLine []
    (replaceList sessionOpenLine []
      (replaceList sessionImportLine [] content))

/-- src/features.rs lines 85-104: a no-op when the file does not exist
(modelled as `none`), otherwise the content is rewritten in place. -/
def cleanup_layout_for_no_auth (file : Option Str) : Option Str :=
  match file with
  | none => none
  | some content => some (cleanup_layout_content content)

/-- The sixteen lowercase hexadecimal digits. -/
def hexChars : Str := "0123456789abcdef".toList

/-- Rust `format!("\x7b:02x\x7d", b)` for a byte `b`: two lowercase hex
digits. -/
def byteToHex (b : Nat) : Str := [hexChars.getD (b / 16) 'x', hexChars.getD (b % 16) 'x']

/-- src/features.rs lines 193-197: hex-encode the 32 random bytes drawn from
the thread RNG; the random draw itself is modelled by the `randomBytes`
argument. -/
def generate_random_secret (randomBytes : List Nat) : Str :=
  ((randomBytes.map byteToHex).flatten : Str)

/-- src/features.rs lines 199-210: the exact content written to `.env`. -/
def generate_env_file_content (randomBytes : List Nat) : Str :=
  "# Auth (GitHub OAuth)\nAUTH_SECRET=".toList ++
    generate_random_secret randomBytes ++
    "\nAUTH_GITHUB_ID=\nAUTH_GITHUB_SECRET=\n".toList

/-- src/features.rs lines 199-210 as a file-state transformer: `fs::write`
replaces whatever was at the path before. -/
def generate_env_file (_oldFile : Option Str) (randomBytes : List Nat) : Option Str :=
  some (generate_env_file_content randomBytes)

/-- One entry of the cloned template tree as enumerated by `WalkDir`
(src/template.rs line 67): its path relative to the template root, whether it
is a directory, and its raw bytes (files only). -/
structure SourceEntry where
  path : Str
  isDir : Bool
  content : List Nat
deriving DecidableEq

/-- The filter of src/template.rs lines 72-78: an entry is materialized unless
its relative path matches a skip rule or is the reserved name `template.json`. -/
def keepEntry (p : Str) (skip : List Str) : Bool :=
  !(should_skip_file p skip) && !(p == "template.json".toList)

/-- Relative paths of the files written by `copy_template`
(src/template.rs lines 84-98). -/
def writtenFiles (entries : List SourceEntry) (skip : List Str) : List Str :=
  (entries.filter (fun e => keepEntry e.path skip && !e.isDir)).map (fun e => e.path)

/-- The proper ancestors of a slash-separated relative path: every prefix that
is cut off immediately before a separator. -/
def properAncestors : Str → List Str
  | [] => []
  | c :: rest =>
    (if c = '/' then [([] : Str)] else []) ++ (properAncestors rest).map (fun a => c :: a)

/-- Relative paths of the directories created under the destination by
`copy_template`: kept directory entries themselves (line 83), and every
ancestor of a kept entry (`fs::create_dir_all` on the entry for directories,
on the parent for files, lines 83-87). -/
def createdDirs (entries : List SourceEntry) (skip : List Str) : List Str :=
  (entries.filter (fun e => keepEntry e.path skip)).flatMap
    (fun e => (if e.isDir then [e.path] else []) ++ properAncestors e.path)

/-
General lemmas about `replaceList`.
-/

theorem replaceList_nil (pat rep : Str) : replaceList pat rep [] = [] := by
  simp [replaceList]

theorem replaceList_pos (pat rep : Str) (c : Char) (rest : Str)
    (h : pat <+: (c :: rest)) (h0 : 0 < pat.length) :
    replaceList pat rep (c :: rest) =
      rep ++ replaceList pat rep (rest.drop (pat.length - 1)) := by
  rw [replaceList, if_pos ⟨h, h0⟩]

theorem replaceList_neg (pat rep : Str) (c : Char) (rest : Str)
    (h : ¬ pat <+: (c :: rest)) :
    replaceList pat rep (c :: rest) = c :: replaceList pat rep rest := by
  rw [replaceList, if_neg (fun hc => h hc.1)]

theorem replaceList_no_occurrence (pat rep : Str) :
    ∀ s : Str, ¬ pat <:+: s → replaceList pat rep s = s := by
  intro s
  induction s with
  | nil => intro _; exact replaceList_nil pat rep
  | cons c rest ih =>
    intro h
    rw [replaceList_neg pat rep c rest (fun hc => h hc.isInfix)]
    rw [ih (fun hc => h (List.infix_cons_iff.mpr (Or.inr hc)))]

theorem no_match_inside (pat a b : Str)
    (hb : ∀ j, j < pat.length → 0 < j → pat.take (pat.length - j) ≠ pat.drop j)
    (ha : ¬ pat <:+: a) (hane : a ≠ []) : ¬ pat <+: (a ++ (pat ++ b)) := by
  intro hp
  obtain ⟨t, ht⟩ := hp
  rcases Nat.lt_or_ge a.length pat.length with hlt | hge
  · -- the pattern overlaps the boundary: `a` is a proper prefix of the pattern
    have hdrop : pat.drop a.length ++ t = pat ++ b := by
      have := congrArg (List.drop a.length) ht
      rw [List.drop_append_eq_append_drop, List.drop_append_eq_append_drop,
        Nat.sub_eq_zero_of_le (Nat.le_of_lt hlt), List.drop_zero, List.drop_length,
        Nat.sub_self, List.drop_zero, List.nil_append] at this
      exact this
    have hlen : (pat.drop a.length).length = pat.length - a.length := by
      simp [List.length_drop]
    have hfinal : pat.drop a.length = pat.take (pat.length - a.length) := by
      have h2 := congrArg (List.take (pat.length - a.length)) hdrop
      rw [List.take_append_eq_append_take, List.take_append_eq_append_take, hlen,
        Nat.sub_self, List.take_zero, List.append_nil,
        List.take_of_length_le (le_of_eq hlen),
        Nat.sub_eq_zero_of_le (Nat.sub_le pat.length a.length), List.take_zero,
        List.append_nil] at h2
      exact h2
    have hapos : 0 < a.length := List.length_pos.mpr hane
    exact hb a.length hlt hapos hfinal.symm
  · -- the pattern would sit inside `a`
    have htake : a.take pat.length = pat := by
      have := congrArg (List.take pat.length) ht
      simpa [List.take_append_eq_append_take, List.take_length,
        Nat.sub_eq_zero_of_le hge] using this.symm
    exact ha (List.prefix_iff_eq_take.mpr htake.symm).isInfix

theorem replaceList_once (pat rep : Str)
    (hb : ∀ j, j < pat.length → 0 < j → pat.take (pat.length - j) ≠ pat.drop j)
    (hpe : pat ≠ []) :
    ∀ a b : Str, ¬ pat <:+: a →
      replaceList pat rep (a ++ (pat ++ b)) = a ++ rep ++ replaceList pat rep b := by
  intro a
  induction a with
  | nil =>
    intro b _
    obtain ⟨p, pt, hp⟩ : ∃ p pt, pat = p :: pt := by
      cases hpat : pat with
      | nil => exact absurd hpat hpe
      | cons p pt => exact ⟨p, pt, rfl⟩
    have hlen1 : pat.length - 1 = pt.length := by simp [hp]
    rw [List.nil_append, hp, List.cons_append,
      replaceList_pos (p :: pt) rep p (pt ++ b) (by exact ⟨b, by simp⟩) (by simp),
      ← hp, hlen1, List.drop_left, hp]
    simp
  | cons c a2 ih =>
    intro b ha
    have hnp : ¬ pat <+: ((c :: a2) ++ (pat ++ b)) :=
      no_match_inside pat (c :: a2) b hb ha (by simp)
    rw [List.cons_append, replaceList_neg pat rep c (a2 ++ (pat ++ b))
      (by rw [← List.cons_append]; exact hnp)]
    rw [ih b (fun hc => ha (List.infix_cons_iff.mpr (Or.inr hc)))]
    simp

theorem infix_split (l u w : Str) (h : l <:+: u ++ w) :
    l <:+: u ∨ l <:+: w ∨
      ∃ l₁ l₂, l = l₁ ++ l₂ ∧ l₁ ≠ [] ∧ l₁ <:+ u ∧ l₂ <+: w := by
  obtain ⟨s, t, hst⟩ := h
  rcases Nat.lt_or_ge s.length u.length with hsu | hsu
  · rcases Nat.lt_or_ge u.length (s.length + l.length) with hspan | hin
    · -- l spans the boundary between u and w
      have hu : u = s ++ l.take (u.length - s.length) := by
        have h1 : (s ++ l ++ t).take u.length = u := by rw [hst, List.take_left]
        have h2 : (s ++ l ++ t).take u.length = s ++ l.take (u.length - s.length) := by
          rw [List.take_append_eq_append_take, List.take_append_eq_append_take,
            List.take_of_length_le (Nat.le_of_lt hsu), List.length_append,
            (by omega : u.length - (s.length + l.length) = 0), List.take_zero,
            List.append_nil]
        exact h1.symm.trans h2
      have hw : w = l.drop (u.length - s.length) ++ t := by
        have h1 : (s ++ l ++ t).drop u.length = w := by rw [hst, List.drop_left]
        have h2 : (s ++ l ++ t).drop u.length = l.drop (u.length - s.length) ++ t := by
          rw [List.drop_append_eq_append_drop, List.drop_append_eq_append_drop,
            List.drop_eq_nil_of_le (Nat.le_of_lt hsu), List.length_append,
            (by omega : u.length - (s.length + l.length) = 0), List.drop_zero,
            List.nil_append]
        exact h1.symm.trans h2
      refine Or.inr (Or.inr ⟨l.take (u.length - s.length), l.drop (u.length - s.length),
        (List.take_append_drop _ l).symm, ?_, ⟨s, hu.symm⟩, ⟨t, hw.symm⟩⟩)
      intro hnil
      have hlen := congrArg List.length hnil
      rw [List.length_take, List.length_nil] at hlen
      omega
    · -- l sits inside u
      have hu : u = s ++ l ++ t.take (u.length - (s.length + l.length)) := by
        have h1 : (s ++ l ++ t).take u.length = u := by rw [hst, List.take_left]
        have h2 : (s ++ l ++ t).take u.length =
            s ++ l ++ t.take (u.length - (s.length + l.length)) := by
          rw [List.take_append_eq_append_take,
            List.take_of_length_le (by rw [List.length_append]; omega),
            List.length_append]
        exact h1.symm.trans h2
      exact Or.inl ⟨s, t.take (u.length - (s.length + l.length)), hu.symm⟩
  · -- l sits inside w
    have hw : w = s.drop u.length ++ l ++ t := by
      have h1 : (s ++ l ++ t).drop u.length = w := by rw [hst, List.drop_left]
      have h2 : (s ++ l ++ t).drop u.length = s.drop u.length ++ l ++ t := by
        rw [List.drop_append_eq_append_drop, List.drop_append_eq_append_drop,
          Nat.sub_eq_zero_of_le hsu, List.drop_zero, List.length_append,
          (by omega : u.length - (s.length + l.length) = 0), List.drop_zero]
      exact h1.symm.trans h2
    exact Or.inr (Or.inl ⟨s.drop u.length, t, hw.symm⟩)

theorem placeholder_length : placeholder.length = 16 := by decide

theorem placeholder_drop_vs_rep : ∀ k, k < 16 → 10 ≤ k →
    placeholder.drop k ≠ ("my-app".toList).take (16 - k) := by decide

theorem placeholder_drop_take6_vs_rep : ∀ k, k < 10 →
    (placeholder.drop k).take 6 ≠ "my-app".toList := by decide

theorem drop_prefix_replace :
    ∀ (n : Nat) (s : Str), s.length ≤ n → ∀ k, k < 16 →
      placeholder.drop k <+: replaceList placeholder ("my-app".toList) s →
      placeholder.drop k <+: s := by
  intro n
  induction n with
  | zero =>
    intro s hs k hk hp
    have hsnil : s = [] := List.length_eq_zero.mp (Nat.le_zero.mp hs)
    subst hsnil
    rw [replaceList_nil] at hp
    obtain ⟨t, ht⟩ := hp
    have hdk := (List.append_eq_nil.mp ht).1
    have := congrArg List.length hdk
    rw [List.length_drop, placeholder_length, List.length_nil] at this
    omega
  | succ n ih =>
    intro s hs k hk hp
    cases s with
    | nil =>
      rw [replaceList_nil] at hp
      obtain ⟨t, ht⟩ := hp
      have hdk := (List.append_eq_nil.mp ht).1
      have := congrArg List.length hdk
      rw [List.length_drop, placeholder_length, List.length_nil] at this
      omega
    | cons c rest =>
      by_cases hpos : placeholder <+: (c :: rest)
      · rw [replaceList_pos _ _ _ _ hpos (by decide)] at hp
        exfalso
        obtain ⟨t, ht⟩ := hp
        have hdl : (placeholder.drop k).length = 16 - k := by
          rw [List.length_drop, placeholder_length]
        have h1 : (placeholder.drop k ++ t).take (16 - k) = placeholder.drop k := by
          rw [List.take_append_eq_append_take, List.take_of_length_le (le_of_eq hdl), hdl,
            Nat.sub_self, List.take_zero, List.append_nil]
        have hml : ("my-app".toList).length = 6 := by decide
        have heq := congrArg (List.take (16 - k)) ht
        rw [h1, List.take_append_eq_append_take, hml] at heq
        rcases Nat.lt_or_ge k 10 with hk10 | hk10
        · rw [List.take_of_length_le (by rw [hml]; omega)] at heq
          have h6 := congrArg (List.take 6) heq
          rw [List.take_append_eq_append_take, List.take_of_length_le (le_of_eq hml), hml,
            Nat.sub_self, List.take_zero, List.append_nil] at h6
          exact placeholder_drop_take6_vs_rep k hk10 h6
        · rw [(by omega : 16 - k - 6 = 0), List.take_zero, List.append_nil] at heq
          exact placeholder_drop_vs_rep k hk hk10 heq
      · rw [replaceList_neg _ _ _ _ hpos] at hp
        have hk16 : k < placeholder.length := by rw [placeholder_length]; omega
        rw [List.drop_eq_getElem_cons hk16, List.cons_prefix_cons] at hp
        obtain ⟨hc, hrest⟩ := hp
        have hrlen : rest.length ≤ n := by
          have := hs
          simp only [List.length_cons] at this
          omega
        have hd : placeholder.drop (k + 1) <+: rest := by
          rcases Nat.lt_or_ge (k + 1) 16 with hk1 | hk1
          · exact ih rest hrlen (k + 1) hk1 hrest
          · have hnil : placeholder.drop (k + 1) = [] := by
              have hde : k + 1 = 16 := by omega
              rw [hde]
              decide
            rw [hnil]
            exact List.nil_prefix
        rw [List.drop_eq_getElem_cons hk16, hc]
        exact List.cons_prefix_cons.mpr ⟨rfl, hd⟩

theorem no_residual :
    ∀ (n : Nat) (s : Str), s.length ≤ n →
      ¬ placeholder <:+: replaceList placeholder ("my-app".toList) s := by
  intro n
  induction n with
  | zero =>
    intro s hs h
    have hsnil : s = [] := List.length_eq_zero.mp (Nat.le_zero.mp hs)
    subst hsnil
    rw [replaceList_nil] at h
    have := h.length_le
    rw [placeholder_length, List.length_nil] at this
    omega
  | succ n ih =>
    intro s hs h
    cases s with
    | nil =>
      rw [replaceList_nil] at h
      have := h.length_le
      rw [placeholder_length, List.length_nil] at this
      omega
    | cons c rest =>
      by_cases hpos : placeholder <+: (c :: rest)
      · rw [replaceList_pos _ _ _ _ hpos (by decide)] at h
        rcases infix_split _ _ _ h with hcase | hcase | hcase
        · have := hcase.length_le
          rw [placeholder_length] at this
          have : (16 : Nat) ≤ 6 := le_trans this (by decide)
          omega
        · have hdlen : (rest.drop (placeholder.length - 1)).length ≤ n := by
            rw [List.length_drop]
            simp only [List.length_cons] at hs
            omega
          exact ih _ hdlen hcase
        · obtain ⟨l₁, l₂, heq, hne, hsuf, _⟩ := hcase
          obtain ⟨h1, l1t, hl1⟩ : ∃ h1 l1t, l₁ = h1 :: l1t := by
            cases hx : l₁ with
            | nil => exact absurd hx hne
            | cons h1 l1t => exact ⟨h1, l1t, rfl⟩
          have hhead : h1 = '\x7b' := by
            have : placeholder = h1 :: (l1t ++ l₂) := by
              rw [heq, hl1, List.cons_append]
            have hh := congrArg List.head? this
            simp only [List.head?_cons] at hh
            have hph : placeholder.head? = some '\x7b' := by decide
            rw [hph] at hh
            exact (Option.some.injEq _ _).mp hh.symm
          have hmem : h1 ∈ ("my-app".toList : Str) := hsuf.subset (by rw [hl1]; simp)
          rw [hhead] at hmem
          exact absurd hmem (by decide)
      · rw [replaceList_neg _ _ _ _ hpos] at h
        rcases List.infix_cons_iff.mp h with hcase | hcase
        · have hpre : placeholder <+: replaceList placeholder ("my-app".toList) (c :: rest) := by
            rw [replaceList_neg _ _ _ _ hpos]
            exact hcase
          have := drop_prefix_replace (n + 1) (c :: rest) hs 0 (by omega)
          rw [List.drop_zero] at this
          exact hpos (this hpre)
        · have hrlen : rest.length ≤ n := by
            simp only [List.length_cons] at hs
            omega
          exact ih rest hrlen hcase

/-- C1: for every text-decodable source file and every project name,
materialization substitutes the placeholder token at every occurrence: the
leftmost occurrence is rewritten to the project name and processing continues
after it (so by iteration every occurrence is rewritten), with project name
`my-app` no occurrence of the token remains in the output, and a decodable
file is materialized exactly as the UTF-8 encoding of the processed text. -/
theorem claim_C1_placeholder_substitution :
    ∀ content name : Str,
      (∀ a b : Str, ¬ placeholder <:+: a → content = a ++ (placeholder ++ b) →
        process_template content name = a ++ name ++ process_template b name) ∧
      ¬ placeholder <:+: process_template content ("my-app".toList) ∧
      (∀ bytes : List Nat, utf8Decode bytes = some content →
        materializeFileBytes bytes name = utf8Encode (process_template content name)) := by
  intro content name
  refine ⟨?_, ?_, ?_⟩
  · intro a b ha hc
    rw [hc]
    unfold process_template
    exact replaceList_once placeholder name
      (by decide) (by decide) a b ha
  · unfold process_template
    exact no_residual content.length content le_rfl
  · intro bytes hdec
    unfold materializeFileBytes
    rw [hdec]

/-- Witness for C1 at a concrete file content and the project name `my-app`. -/
theorem claim_C1_witness :
    (process_template ("A\x7b\x7bproject_name\x7d\x7dB".toList) ("my-app".toList) =
      "A".toList ++ "my-app".toList ++ process_template ("B".toList) ("my-app".toList)) ∧
    materializeFileBytes [65] ("my-app".toList) =
      utf8Encode (process_template ("A".toList) ("my-app".toList)) :=
  ⟨(claim_C1_placeholder_substitution ("A\x7b\x7bproject_name\x7d\x7dB".toList)
      ("my-app".toList)).1 ("A".toList) ("B".toList) (by decide) (by decide),
   (claim_C1_placeholder_substitution ("A".toList) ("my-app".toList)).2.2 [65] (by decide)⟩

theorem should_skip_iff (path : Str) (rules : List Str) :
    should_skip_file path rules = true ↔ ∃ r ∈ rules, path = r ∨ r <+: path := by
  unfold should_skip_file
  simp only [List.any_eq_true, Bool.or_eq_true, List.isPrefixOf_iff_prefix, beq_iff_eq]
  constructor
  · rintro ⟨r, hr, h⟩
    exact ⟨r, hr, by tauto⟩
  · rintro ⟨r, hr, h⟩
    exact ⟨r, hr, by tauto⟩

/-- C3: `should_skip_file` returns true exactly when the path equals some rule
or starts with some rule under raw string-prefix matching; in particular both
`docs/page.md` and `docsx/page.md` are skipped by the rule `docs`. -/
theorem claim_C3_skip_matching :
    (∀ (path : Str) (rules : List Str),
      should_skip_file path rules = true ↔ ∃ r ∈ rules, path = r ∨ r <+: path) ∧
    should_skip_file ("docs/page.md".toList) ["docs".toList] = true ∧
    should_skip_file ("docsx/page.md".toList) ["docs".toList] = true :=
  ⟨should_skip_iff, by decide, by decide⟩

/-- C10: skip matching is monotone in the rule set: enlarging the rule list
never stops a path from being skipped. -/
theorem claim_C10_skip_monotone :
    ∀ (path : Str) (r r2 : List Str), (∀ x, x ∈ r → x ∈ r2) →
      should_skip_file path r = true → should_skip_file path r2 = true := by
  intro path r r2 hsub h
  obtain ⟨x, hx, hcond⟩ := List.any_eq_true.mp h
  exact List.any_eq_true.mpr ⟨x, hsub x hx, hcond⟩

/-- Witness for C10 on a concrete path and a concrete pair of rule lists. -/
theorem claim_C10_witness :
    should_skip_file ("docs/a.md".toList) ["docs".toList, "api/auth".toList] = true :=
  claim_C10_skip_monotone ("docs/a.md".toList) ["docs".toList]
    ["docs".toList, "api/auth".toList] (by decide) (by decide)

/-- C5: the skip-rule resolvers are pure total functions: equal toggles give
equal rule lists, the all-enabled toggles give the empty list, and the
all-disabled toggles give the maximal fixed list of the flavor (for the lib
flavor the language variant `javascript` additionally contributes its rule). -/
theorem claim_C5_resolver_pure :
    (∀ d a b : Bool, get_files_to_skip d a b = get_files_to_skip d a b) ∧
    get_files_to_skip true true true = [] ∧
    get_files_to_skip false false false =
      ["src/routes/docs".toList, "content/docs".toList, "src/lib/docs.ts".toList,
       "src/lib/docs.test.ts".toList, "src/lib/mdx-components.tsx".toList,
       "src/components/docs-sidebar.tsx".toList, "src/components/copyable-pre.tsx".toList,
       "src/lib/auth.ts".toList, "api/auth".toList,
       "src/components/session-provider.tsx".toList, "src/lib/db.ts".toList] ∧
    (∀ (lang : String) (r c t : Bool),
      get_lib_files_to_skip lang r c t = get_lib_files_to_skip lang r c t) ∧
    get_lib_files_to_skip "typescript" true true true = [] ∧
    get_lib_files_to_skip "javascript" false false false =
      ["tsconfig.json".toList, "src/components".toList, "src/styles".toList,
       "vitest.config.ts".toList, "src/__tests__".toList] :=
  ⟨fun _ _ _ => rfl, by decide, by decide, fun _ _ _ _ => rfl, by decide, by decide⟩

/-- Counterexample to C2 as stated: on the materialization path of
src/main.rs lines 164-177, a file whose single byte 255 is not valid UTF-8 is
not copied byte-for-byte: `unwrap_or_default` turns it into the empty string,
so an empty file is written. -/
theorem claim_C2_counterexample :
    utf8Decode [255] = none ∧
    materializeFileBytesMain [255] ("my-app".toList) ≠ [255] := by
  refine ⟨by decide, ?_⟩
  unfold materializeFileBytesMain process_template
  rw [(by decide : utf8Decode [255] = none), Option.getD_none, replaceList_nil]
  decide

/-- C2 (amended): in the `copy_template` and `copy_filtered` materialization
paths, a source file whose bytes are not valid UTF-8 is copied byte-for-byte
identical to the source; the legacy src/main.rs path instead writes the
processed empty string. -/
theorem claim_C2_binary_copy (bytes : List Nat) (name : Str)
    (h : utf8Decode bytes = none) :
    materializeFileBytes bytes name = bytes ∧
    materializeFileBytesMain bytes name = utf8Encode (process_template [] name) := by
  constructor
  · unfold materializeFileBytes
    rw [h]
  · unfold materializeFileBytesMain
    rw [h]
    rfl

/-- Witness for C2 (amended) at the non-UTF-8 byte 255. -/
theorem claim_C2_witness :
    materializeFileBytes [255] ("x".toList) = [255] :=
  (claim_C2_binary_copy [255] ("x".toList) (by decide)).1

/-
Lemmas about the manifest model.
-/

theorem lookup_filter_self (m : List (String × v)) (k : String) :
    List.lookup k (m.filter (fun e => !(e.1 == k))) = none := by
  induction m with
  | nil => rfl
  | cons e rest ih =>
    by_cases he : e.1 = k
    · simp only [List.filter_cons]
      rw [if_neg (by simp [he])]
      exact ih
    · simp only [List.filter_cons]
      rw [if_pos (by simp [he])]
      rw [List.lookup_cons, (show (k == e.1) = false by simp [Ne.symm he])]
      exact ih

theorem lookup_filter_ne (m : List (String × v)) (k k0 : String) (h : k ≠ k0) :
    List.lookup k (m.filter (fun e => !(e.1 == k0))) = List.lookup k m := by
  induction m with
  | nil => rfl
  | cons e rest ih =>
    by_cases he : e.1 = k0
    · have hke : k ≠ e.1 := fun hx => h (hx.trans he)
      simp only [List.filter_cons]
      rw [if_neg (by simp [he])]
      rw [ih, List.lookup_cons, (show (k == e.1) = false by simp [hke])]
    · simp only [List.filter_cons]
      rw [if_pos (by simp [he])]
      rw [List.lookup_cons, List.lookup_cons]
      cases hbk : (k == e.1)
      · exact ih
      · rfl

theorem lookup_removeKeys_not_mem (ks : List String) :
    ∀ (m : List (String × v)) (k : String), k ∉ ks →
      List.lookup k (removeKeys m ks) = List.lookup k m := by
  induction ks with
  | nil => intro m k _; rfl
  | cons k0 ks ih =>
    intro m k hk
    have hne : k ≠ k0 := fun hx => hk (by rw [hx]; exact List.mem_cons_self k0 ks)
    have hrest : k ∉ ks := fun hx => hk (List.mem_cons_of_mem k0 hx)
    show List.lookup k (removeKeys (m.filter (fun e => !(e.1 == k0))) ks) = _
    rw [ih _ k hrest, lookup_filter_ne m k k0 hne]

theorem lookup_removeKeys_mem (ks : List String) :
    ∀ (m : List (String × v)) (k : String), k ∈ ks →
      List.lookup k (removeKeys m ks) = none := by
  induction ks with
  | nil => intro m k hk; exact absurd hk (List.not_mem_nil k)
  | cons k0 ks ih =>
    intro m k hk
    by_cases hks : k ∈ ks
    · exact ih _ k hks
    · have hk0 : k = k0 := by
        rcases List.mem_cons.mp hk with h | h
        · exact h
        · exact absurd h hks
      show List.lookup k (removeKeys (m.filter (fun e => !(e.1 == k0))) ks) = none
      rw [lookup_removeKeys_not_mem ks _ k hks, hk0, lookup_filter_self]

theorem sectionLookup_modify_mem (s : JSection v) (ks : List String) (k : String)
    (h : k ∈ ks) :
    sectionLookup (modifySection s (fun m => removeKeys m ks)) k = none := by
  cases s with
  | absent => rfl
  | nonObject => rfl
  | obj m => exact lookup_removeKeys_mem ks m k h

theorem sectionLookup_modify_not_mem (s : JSection v) (ks : List String) (k : String)
    (h : k ∉ ks) :
    sectionLookup (modifySection s (fun m => removeKeys m ks)) k = sectionLookup s k := by
  cases s with
  | absent => rfl
  | nonObject => rfl
  | obj m => exact lookup_removeKeys_not_mem ks m k h

theorem modifySection_comp (s : JSection v)
    (f g : List (String × v) → List (String × v)) :
    modifySection (modifySection s f) g = modifySection s (fun m => g (f m)) := by
  cases s <;> rfl

theorem upj_dependencies (p : Manifest v) (d a b : Bool) :
    (update_package_json p d a b).dependencies =
      if d && a && b then p.dependencies
      else modifySection p.dependencies (fun m => removeKeys m (removedDepsKeys d a b)) := by
  cases d <;> cases a <;> cases b <;>
    simp [update_package_json, removedDepsKeys, modifySection_comp, removeKeys]

theorem upj_devDependencies (p : Manifest v) (d a b : Bool) :
    (update_package_json p d a b).devDependencies =
      if d && b then p.devDependencies
      else modifySection p.devDependencies
        (fun m => removeKeys m (removedDevDepsKeys d a b)) := by
  cases d <;> cases a <;> cases b <;>
    simp [update_package_json, removedDevDepsKeys, modifySection_comp, removeKeys]

theorem upj_peerDependencies (p : Manifest v) (d a b : Bool) :
    (update_package_json p d a b).peerDependencies = p.peerDependencies := by
  cases d <;> cases a <;> cases b <;> simp [update_package_json]

theorem upj_scripts (p : Manifest v) (d a b : Bool) :
    (update_package_json p d a b).scripts = p.scripts := by
  cases d <;> cases a <;> cases b <;> simp [update_package_json]

theorem removeKeys_removeKeys (m : List (String × v)) (ks1 ks2 : List String) :
    removeKeys (removeKeys m ks1) ks2 = removeKeys m (ks1 ++ ks2) := by
  unfold removeKeys
  rw [List.foldl_append]

theorem ulpj_dependencies (p : Manifest v) (lang : String) (r c t : Bool) :
    (update_lib_package_json p lang r c t).dependencies =
      if c then p.dependencies
      else modifySection p.dependencies
        (fun m => removeKeys m (libRemovedDepsKeys lang r c t)) := by
  by_cases hl : lang = "javascript" <;> cases r <;> cases c <;> cases t <;>
    simp [update_lib_package_json, libRemovedDepsKeys, modifySection_comp, hl]

theorem ulpj_peerDependencies (p : Manifest v) (lang : String) (r c t : Bool) :
    (update_lib_package_json p lang r c t).peerDependencies =
      if r then p.peerDependencies
      else modifySection p.peerDependencies
        (fun m => removeKeys m (libRemovedPeerDepsKeys lang r c t)) := by
  by_cases hl : lang = "javascript" <;> cases r <;> cases c <;> cases t <;>
    simp [update_lib_package_json, libRemovedPeerDepsKeys, modifySection_comp, hl]

theorem ulpj_scripts (p : Manifest v) (lang : String) (r c t : Bool) :
    (update_lib_package_json p lang r c t).scripts =
      if t then p.scripts
      else modifySection p.scripts
        (fun m => removeKeys m (libRemovedScriptsKeys lang r c t)) := by
  by_cases hl : lang = "javascript" <;> cases r <;> cases c <;> cases t <;>
    simp [update_lib_package_json, libRemovedScriptsKeys, modifySection_comp, hl]

theorem ulpj_devDependencies (p : Manifest v) (lang : String) (r c t : Bool) :
    (update_lib_package_json p lang r c t).devDependencies =
      if lang ≠ "javascript" ∧ r = true ∧ c = true ∧ t = true then p.devDependencies
      else modifySection p.devDependencies
        (fun m => removeKeys m (libRemovedDevDepsKeys lang r c t)) := by
  by_cases hl : lang = "javascript" <;> cases r <;> cases c <;> cases t <;>
    simp [update_lib_package_json, libRemovedDevDepsKeys, modifySection_comp, hl,
      removeKeys_removeKeys]

/-- C4: under the subtractive policy, after editing no dependency key
associated with a disabled feature remains in any targeted section, and every
key not associated with a disabled feature keeps its binding unchanged, for
both manifest editors (app and lib flavors) and all toggle combinations. -/
theorem claim_C4_manifest_subtractive :
    (∀ (v : Type) (p : Manifest v) (d a b : Bool),
      (∀ k, k ∈ removedDepsKeys d a b →
        sectionLookup (update_package_json p d a b).dependencies k = none) ∧
      (∀ k, k ∉ removedDepsKeys d a b →
        sectionLookup (update_package_json p d a b).dependencies k =
          sectionLookup p.dependencies k) ∧
      (∀ k, k ∈ removedDevDepsKeys d a b →
        sectionLookup (update_package_json p d a b).devDependencies k = none) ∧
      (∀ k, k ∉ removedDevDepsKeys d a b →
        sectionLookup (update_package_json p d a b).devDependencies k =
          sectionLookup p.devDependencies k) ∧
      (update_package_json p d a b).peerDependencies = p.peerDependencies ∧
      (update_package_json p d a b).scripts = p.scripts) ∧
    (∀ (v : Type) (p : Manifest v) (lang : String) (r c t : Bool),
      (∀ k, k ∈ libRemovedDepsKeys lang r c t →
        sectionLookup (update_lib_package_json p lang r c t).dependencies k = none) ∧
      (∀ k, k ∉ libRemovedDepsKeys lang r c t →
        sectionLookup (update_lib_package_json p lang r c t).dependencies k =
          sectionLookup p.dependencies k) ∧
      (∀ k, k ∈ libRemovedDevDepsKeys lang r c t →
        sectionLookup (update_lib_package_json p lang r c t).devDependencies k = none) ∧
      (∀ k, k ∉ libRemovedDevDepsKeys lang r c t →
        sectionLookup (update_lib_package_json p lang r c t).devDependencies k =
          sectionLookup p.devDependencies k) ∧
      (∀ k, k ∈ libRemovedPeerDepsKeys lang r c t →
        sectionLookup (update_lib_package_json p lang r c t).peerDependencies k = none) ∧
      (∀ k, k ∉ libRemovedPeerDepsKeys lang r c t →
        sectionLookup (update_lib_package_json p lang r c t).peerDependencies k =
          sectionLookup p.peerDependencies k) ∧
      (∀ k, k ∈ libRemovedScriptsKeys lang r c t →
        sectionLookup (update_lib_package_json p lang r c t).scripts k = none) ∧
      (∀ k, k ∉ libRemovedScriptsKeys lang r c t →
        sectionLookup (update_lib_package_json p lang r c t).scripts k =
          sectionLookup p.scripts k)) := by
  constructor
  · intro v p d a b
    refine ⟨?_, ?_, ?_, ?_, upj_peerDependencies p d a b, upj_scripts p d a b⟩
    · intro k hk
      rw [upj_dependencies]
      split
      · next h =>
        simp only [Bool.and_eq_true] at h
        obtain ⟨⟨hd, ha⟩, hb⟩ := h
        subst hd; subst ha; subst hb
        simp [removedDepsKeys] at hk
      · exact sectionLookup_modify_mem _ _ _ hk
    · intro k hk
      rw [upj_dependencies]
      split
      · rfl
      · exact sectionLookup_modify_not_mem _ _ _ hk
    · intro k hk
      rw [upj_devDependencies]
      split
      · next h =>
        simp only [Bool.and_eq_true] at h
        obtain ⟨hd, hb⟩ := h
        subst hd; subst hb
        cases a <;> simp [removedDevDepsKeys] at hk
      · exact sectionLookup_modify_mem _ _ _ hk
    · intro k hk
      rw [upj_devDependencies]
      split
      · rfl
      · exact sectionLookup_modify_not_mem _ _ _ hk
  · intro v p lang r c t
    refine ⟨?_, ?_, ?_, ?_, ?_, ?_, ?_, ?_⟩
    · intro k hk
      rw [ulpj_dependencies]
      split
      · next h =>
        subst h
        exact absurd hk (by simp [libRemovedDepsKeys])
      · exact sectionLookup_modify_mem _ _ _ hk
    · intro k hk
      rw [ulpj_dependencies]
      split
      · rfl
      · exact sectionLookup_modify_not_mem _ _ _ hk
    · intro k hk
      rw [ulpj_devDependencies]
      split
      · next h =>
        obtain ⟨hl, hr, hc, ht⟩ := h
        subst hr; subst hc; subst ht
        exact absurd hk (by simp [libRemovedDevDepsKeys, hl])
      · exact sectionLookup_modify_mem _ _ _ hk
    · intro k hk
      rw [ulpj_devDependencies]
      split
      · rfl
      · exact sectionLookup_modify_not_mem _ _ _ hk
    · intro k hk
      rw [ulpj_peerDependencies]
      split
      · next h =>
        subst h
        exact absurd hk (by simp [libRemovedPeerDepsKeys])
      · exact sectionLookup_modify_mem _ _ _ hk
    · intro k hk
      rw [ulpj_peerDependencies]
      split
      · rfl
      · exact sectionLookup_modify_not_mem _ _ _ hk
    · intro k hk
      rw [ulpj_scripts]
      split
      · next h =>
        subst h
        exact absurd hk (by simp [libRemovedScriptsKeys])
      · exact sectionLookup_modify_mem _ _ _ hk
    · intro k hk
      rw [ulpj_scripts]
      split
      · rfl
      · exact sectionLookup_modify_not_mem _ _ _ hk

/-- Witness for C4: a concrete manifest with docs on, auth off, db on removes
exactly the auth key and keeps an unrelated key; a concrete lib manifest with
testing off removes the `test` script. -/
theorem claim_C4_witness :
    sectionLookup (update_package_json (v := String)
      ⟨.obj [("@auth/core", "1.0"), ("react", "18")], .obj [], .absent, .absent⟩
      true false true).dependencies "@auth/core" = none ∧
    sectionLookup (update_package_json (v := String)
      ⟨.obj [("@auth/core", "1.0"), ("react", "18")], .obj [], .absent, .absent⟩
      true false true).dependencies "react" =
      sectionLookup (JSection.obj [("@auth/core", "1.0"), ("react", "18")]) "react" ∧
    sectionLookup (update_lib_package_json (v := String)
      ⟨.absent, .obj [("vitest", "2")], .absent, .obj [("test", "vitest run")]⟩
      "typescript" true true false).scripts "test" = none :=
  ⟨((claim_C4_manifest_subtractive.1 String
      ⟨.obj [("@auth/core", "1.0"), ("react", "18")], .obj [], .absent, .absent⟩
      true false true).1 "@auth/core" (by decide)),
   ((claim_C4_manifest_subtractive.1 String
      ⟨.obj [("@auth/core", "1.0"), ("react", "18")], .obj [], .absent, .absent⟩
      true false true).2.1 "react" (by decide)),
   ((claim_C4_manifest_subtractive.2 String
      ⟨.absent, .obj [("vitest", "2")], .absent, .obj [("test", "vitest run")]⟩
      "typescript" true true false).2.2.2.2.2.2.1 "test" (by decide))⟩

/-- Counterexample to C7 as stated: the additive (insertion) editor of
src/main.rs does not create an absent `dependencies` section; it fails with
the propagated `Invalid package.json` error (modelled as `none`), because
serde_json inserts `Null` for the missing key and `as_object_mut` on `Null`
returns `None`. -/
theorem claim_C7_counterexample :
    update_package_json_main ⟨.absent, .absent, .absent, .absent⟩ false false false = none := by
  rfl

/-- C7 (amended): when a targeted section is absent, the subtractive editor
treats it as nothing to remove and succeeds (every section lookup is
unchanged), while the additive editor of src/main.rs fails with an error
instead of creating the section. -/
theorem claim_C7_absent_section :
    (∀ (v : Type) (p : Manifest v) (d a b : Bool), p.dependencies = .absent →
      ∀ k, sectionLookup (update_package_json p d a b).dependencies k =
        sectionLookup p.dependencies k) ∧
    (∀ (v : Type) (p : Manifest v) (d a b : Bool), p.devDependencies = .absent →
      ∀ k, sectionLookup (update_package_json p d a b).devDependencies k =
        sectionLookup p.devDependencies k) ∧
    (∀ (p : Manifest String) (d a b : Bool), p.dependencies = .absent →
      update_package_json_main p d a b = none) := by
  refine ⟨?_, ?_, ?_⟩
  · intro v p d a b hdep k
    rw [upj_dependencies]
    split
    · rfl
    · rw [hdep]
      rfl
  · intro v p d a b hdep k
    rw [upj_devDependencies]
    split
    · rfl
    · rw [hdep]
      rfl
  · intro p d a b hdep
    unfold update_package_json_main
    rw [hdep]

/-- Witness for C7 (amended) on concrete manifests with an absent
`dependencies` section. -/
theorem claim_C7_witness :
    (sectionLookup (update_package_json (v := String)
        ⟨.absent, .obj [("x", "1")], .absent, .absent⟩ false true true).dependencies
        "@mdx-js/react" =
      sectionLookup (JSection.absent (v := String)) "@mdx-js/react") ∧
    update_package_json_main ⟨.absent, .obj [], .absent, .absent⟩ true true true = none :=
  ⟨claim_C7_absent_section.1 String
      ⟨.absent, .obj [("x", "1")], .absent, .absent⟩ false true true rfl "@mdx-js/react",
   claim_C7_absent_section.2.2 ⟨.absent, .obj [], .absent, .absent⟩ true true true rfl⟩

/-- C8: wrapper-block removal on a file containing the exact import line and
the exact marker pair (each occurring exactly once, as expressed by the
non-occurrence side conditions) deletes those three lines and keeps
everything else, in particular all lines between the markers, unchanged; on a
file containing none of the three lines it is the identity; and it is a no-op
when the file does not exist. -/
theorem claim_C8_wrapper_removal :
    (∀ a b mid c2 : Str,
      ¬ sessionImportLine <:+: a →
      ¬ sessionImportLine <:+: (b ++ (sessionOpenLine ++ (mid ++ (sessionCloseLine ++ c2)))) →
      ¬ sessionOpenLine <:+: (a ++ b) →
      ¬ sessionOpenLine <:+: (mid ++ (sessionCloseLine ++ c2)) →
      ¬ sessionCloseLine <:+: (a ++ b ++ mid) →
      ¬ sessionCloseLine <:+: c2 →
      cleanup_layout_content
        (a ++ (sessionImportLine ++ (b ++ (sessionOpenLine ++ (mid ++ (sessionCloseLine ++ c2)))))) =
        a ++ b ++ mid ++ c2) ∧
    (∀ s : Str, ¬ sessionImportLine <:+: s → ¬ sessionOpenLine <:+: s →
      ¬ sessionCloseLine <:+: s → cleanup_layout_content s = s) ∧
    cleanup_layout_for_no_auth none = none := by
  refine ⟨?_, ?_, rfl⟩
  · intro a b mid c2 h1 h2 h3 h4 h5 h6
    unfold cleanup_layout_content
    have s1 : replaceList sessionImportLine []
        (a ++ (sessionImportLine ++ (b ++ (sessionOpenLine ++ (mid ++ (sessionCloseLine ++ c2)))))) =
        a ++ (b ++ (sessionOpenLine ++ (mid ++ (sessionCloseLine ++ c2)))) := by
      rw [replaceList_once sessionImportLine [] (by decide) (by decide) a _ h1,
        replaceList_no_occurrence sessionImportLine [] _ h2]
      simp
    have s2 : replaceList sessionOpenLine []
        (a ++ (b ++ (sessionOpenLine ++ (mid ++ (sessionCloseLine ++ c2))))) =
        a ++ (b ++ (mid ++ (sessionCloseLine ++ c2))) := by
      have h0 := replaceList_once sessionOpenLine [] (by decide) (by decide) (a ++ b)
        (mid ++ (sessionCloseLine ++ c2)) h3
      rw [replaceList_no_occurrence sessionOpenLine [] _ h4] at h0
      have hsh : (a ++ b) ++ (sessionOpenLine ++ (mid ++ (sessionCloseLine ++ c2))) =
          a ++ (b ++ (sessionOpenLine ++ (mid ++ (sessionCloseLine ++ c2)))) := by
        simp [List.append_assoc]
      rw [hsh] at h0
      rw [h0]
      simp [List.append_assoc]
    have s3 : replaceList sessionCloseLine []
        (a ++ (b ++ (mid ++ (sessionCloseLine ++ c2)))) =
        a ++ (b ++ (mid ++ c2)) := by
      have h5a : ¬ sessionCloseLine <:+: ((a ++ b) ++ mid) := h5
      have h0 := replaceList_once sessionCloseLine [] (by decide) (by decide)
        ((a ++ b) ++ mid) c2 h5a
      rw [replaceList_no_occurrence sessionCloseLine [] _ h6] at h0
      have hsh : ((a ++ b) ++ mid) ++ (sessionCloseLine ++ c2) =
          a ++ (b ++ (mid ++ (sessionCloseLine ++ c2))) := by
        simp [List.append_assoc]
      rw [hsh] at h0
      rw [h0]
      simp [List.append_assoc]
    rw [s1, s2, s3]
    simp [List.append_assoc]
  · intro s h1 h2 h3
    unfold cleanup_layout_content
    rw [replaceList_no_occurrence sessionImportLine [] s h1,
      replaceList_no_occurrence sessionOpenLine [] s h2,
      replaceList_no_occurrence sessionCloseLine [] s h3]

/-- Witness for C8 on a concrete layout file. -/
theorem claim_C8_witness :
    cleanup_layout_content
      ("x\n".toList ++ (sessionImportLine ++ ("y\n".toList ++ (sessionOpenLine ++
        ("  <A/>\n".toList ++ (sessionCloseLine ++ "z\n".toList)))))) =
      "x\n".toList ++ "y\n".toList ++ "  <A/>\n".toList ++ "z\n".toList :=
  claim_C8_wrapper_removal.1 ("x\n".toList) ("y\n".toList) ("  <A/>\n".toList) ("z\n".toList)
    (by decide) (by decide) (by decide) (by decide) (by decide) (by decide)

theorem secret_length (bs : List Nat) :
    (generate_random_secret bs).length = 2 * bs.length := by
  induction bs with
  | nil => rfl
  | cons b t ih =>
    show (byteToHex b ++ generate_random_secret t).length = 2 * (b :: t).length
    rw [List.length_append, ih]
    simp [byteToHex]
    omega

theorem secret_all_hex (bs : List Nat) (hb : ∀ x ∈ bs, x < 256) :
    ∀ ch ∈ generate_random_secret bs, ch ∈ hexChars := by
  induction bs with
  | nil => intro ch hch; exact absurd hch (List.not_mem_nil ch)
  | cons b t ih =>
    intro ch hch
    have hb0 : b < 256 := hb b (List.mem_cons_self b t)
    have hbt : ∀ x ∈ t, x < 256 := fun x hx => hb x (List.mem_cons_of_mem b hx)
    have hch2 : ch ∈ byteToHex b ++ generate_random_secret t := hch
    rcases List.mem_append.mp hch2 with hh | hh
    · have hget : ∀ i : Nat, i < 16 → hexChars.getD i 'x' ∈ hexChars := by
        intro i hi
        rw [List.getD_eq_getElem hexChars 'x' (by rw [(by decide : hexChars.length = 16)]; omega)]
        exact List.getElem_mem _
      rcases List.mem_pair.mp hh with h | h
      · rw [h]
        exact hget (b / 16) (by omega)
      · rw [h]
        exact hget (b % 16) (by omega)
    · exact ih hbt ch hh

/-- C9: for 32 random bytes, the generated secret is exactly 64 lowercase
hexadecimal characters, contains no newline, and the generated `.env` content
is exactly the header line, one `AUTH_SECRET` line carrying the secret, and
the two empty placeholder lines; writing it ignores (overwrites) whatever was
at the path before. -/
theorem claim_C9_secret_generation :
    ∀ randomBytes : List Nat, randomBytes.length = 32 → (∀ x ∈ randomBytes, x < 256) →
      (generate_random_secret randomBytes).length = 64 ∧
      (∀ ch ∈ generate_random_secret randomBytes, ch ∈ hexChars) ∧
      '\n' ∉ generate_random_secret randomBytes ∧
      generate_env_file_content randomBytes =
        "# Auth (GitHub OAuth)\nAUTH_SECRET=".toList ++
          generate_random_secret randomBytes ++
          "\nAUTH_GITHUB_ID=\nAUTH_GITHUB_SECRET=\n".toList ∧
      (∀ old : Option Str,
        generate_env_file old randomBytes = some (generate_env_file_content randomBytes)) := by
  intro bs hlen hb
  refine ⟨?_, secret_all_hex bs hb, ?_, rfl, fun _ => rfl⟩
  · rw [secret_length, hlen]
  · intro hnl
    have := secret_all_hex bs hb '\n' hnl
    exact absurd this (by decide)

/-- Witness for C9 at a concrete list of 32 bytes. -/
theorem claim_C9_witness :
    (generate_random_secret (List.replicate 32 0)).length = 64 :=
  (claim_C9_secret_generation (List.replicate 32 0) (by decide) (by decide)).1

theorem properAncestors_shape (p : Str) :
    ∀ a ∈ properAncestors p, ∃ rest, p = a ++ '/' :: rest := by
  induction p with
  | nil => intro a ha; exact absurd ha (List.not_mem_nil a)
  | cons c rest ih =>
    intro a ha
    have ha2 : a ∈ (if c = '/' then [([] : Str)] else []) ++
        (properAncestors rest).map (fun x => c :: x) := ha
    rcases List.mem_append.mp ha2 with hh | hh
    · by_cases hc : c = '/'
      · rw [if_pos hc] at hh
        have : a = [] := List.mem_singleton.mp hh
        exact ⟨rest, by rw [this, hc]; rfl⟩
      · rw [if_neg hc] at hh
        exact absurd hh (List.not_mem_nil a)
    · obtain ⟨a2, ha2m, ha2e⟩ := List.mem_map.mp hh
      obtain ⟨r, hr⟩ := ih a2 ha2m
      exact ⟨r, by rw [← ha2e, hr]; rfl⟩

theorem keepEntry_not_skipped (q : Str) (skip : List Str) (h : keepEntry q skip = true) :
    should_skip_file q skip = false := by
  unfold keepEntry at h
  simp only [Bool.and_eq_true, Bool.not_eq_true'] at h
  exact h.1

/-- C6: with a skip rule naming a directory, materialization neither writes
any file under that directory nor creates the directory itself (or anything
below it) at the destination: every path equal to the rule or strictly below
it is absent from the written files and from the created directories. -/
theorem claim_C6_directory_pruned :
    ∀ (entries : List SourceEntry) (rule : Str) (skip : List Str) (p : Str),
      rule ∈ skip →
      (p = rule ∨ ∃ rest, p = rule ++ '/' :: rest) →
      p ∉ writtenFiles entries skip ∧ p ∉ createdDirs entries skip := by
  intro entries rule skip p hrule hp
  have hskipq : ∀ q : Str, (q = rule ∨ ∃ rest, q = rule ++ '/' :: rest) →
      should_skip_file q skip = true := by
    intro q hq
    apply (should_skip_iff q skip).mpr
    refine ⟨rule, hrule, ?_⟩
    rcases hq with h | ⟨rest, h⟩
    · exact Or.inl h
    · exact Or.inr ⟨'/' :: rest, h.symm⟩
  constructor
  · intro hmem
    obtain ⟨e, he, hep⟩ := List.mem_map.mp hmem
    have hf := List.mem_filter.mp he
    have hkeep : keepEntry e.path skip = true := by
      have := hf.2
      simp only [Bool.and_eq_true] at this
      exact this.1
    rw [hep] at hkeep
    exact Bool.noConfusion ((hskipq p hp).symm.trans (keepEntry_not_skipped p skip hkeep))
  · intro hmem
    obtain ⟨e, he, hin⟩ := List.mem_flatMap.mp hmem
    have hf := List.mem_filter.mp he
    have hkeep : keepEntry e.path skip = true := hf.2
    rcases List.mem_append.mp hin with hh | hh
    · have hpe : p = e.path := by
        by_cases hd : e.isDir
        · rw [if_pos hd] at hh
          exact List.mem_singleton.mp hh
        · rw [if_neg hd] at hh
          exact absurd hh (List.not_mem_nil p)
      rw [← hpe] at hkeep
      exact Bool.noConfusion ((hskipq p hp).symm.trans (keepEntry_not_skipped p skip hkeep))
    · obtain ⟨rest2, hrest2⟩ := properAncestors_shape e.path p hh
      have hunder : e.path = rule ∨ ∃ r, e.path = rule ++ '/' :: r := by
        rcases hp with h | ⟨r, h⟩
        · exact Or.inr ⟨rest2, by rw [hrest2, h]⟩
        · refine Or.inr ⟨r ++ '/' :: rest2, ?_⟩
          rw [hrest2, h]
          simp [List.append_assoc]
      exact Bool.noConfusion ((hskipq e.path hunder).symm.trans (keepEntry_not_skipped e.path skip hkeep))

/-- Witness for C6 on a concrete source tree, rule and path. -/
theorem claim_C6_witness :
    ("docs/a.md".toList ∉ writtenFiles
      [⟨"docs".toList, true, []⟩, ⟨"docs/a.md".toList, false, [65]⟩,
       ⟨"src/x.ts".toList, false, []⟩] ["docs".toList]) ∧
    ("docs/a.md".toList ∉ createdDirs
      [⟨"docs".toList, true, []⟩, ⟨"docs/a.md".toList, false, [65]⟩,
       ⟨"src/x.ts".toList, false, []⟩] ["docs".toList]) :=
  claim_C6_directory_pruned
    [⟨"docs".toList, true, []⟩, ⟨"docs/a.md".toList, false, [65]⟩,
     ⟨"src/x.ts".toList, false, []⟩]
    ("docs".toList) ["docs".toList] ("docs/a.md".toList)
    (by decide) (Or.inr ⟨"a.md".toList, by decide⟩)
